import Mathlib

/-!
# Verification of a minimal command-line shell (`src/main.c`)

Shallow embedding of the shell's read–tokenize–dispatch–execute pipeline:

* the tokenizer `sh_split_line` (C `strtok` over the delimiter set
  `" \t\r\n\a"`);
* the line reader `sh_read_line` (character-at-a-time accumulation with a
  fixed-increment buffer growth policy);
* the builtin handlers `sh_cd`, `sh_help`, `sh_exit`, the process launcher
  `sh_launch`, and the dispatcher `sh_execute`.

C strings are modelled as `List Char` / `String`; the NUL sentinel that
terminates a C token array corresponds to the end of the Lean list.  The
operating-system facilities the code calls (`chdir`, `fork`, `waitpid`,
`execvp`, the stdin stream) are injected as explicit parameters, as the
repository's design treats them: `chdir` is a failable operation with an
opaque reason, `fork` either yields a child pid or fails with a reason,
`waitpid` yields a stream of observed child states.  Writes to stdout /
stderr are modelled as lists of output lines.  Process-terminating calls
(`exit`) are modelled as distinguished result constructors.
-/

/-! ## Tokenizer (`sh_split_line`, lines 133–171 of `main.c`) -/

/-- The builtin command names, in registration order (`builtin_str`). -/
def builtin_str : List String := ["cd", "help", "exit"]

/-- `SH_TOKEN_BUFFER_SIZE`: initial capacity (and growth increment) of the
token array.  Growth only reallocates; it never changes the token contents,
so the token-array capacity does not appear in the tokenizer's result. -/
def SH_TOKEN_BUFFER_SIZE : Nat := 64

/-- `SH_TOKEN_DELIMITER`: the five whitespace characters the tokenizer
splits on — space, tab, carriage return, newline, bell (`" \t\r\n\a"`). -/
def SH_TOKEN_DELIMITER : List Char := [' ', '\t', '\r', '\n', Char.ofNat 7]

/-- A character is a token delimiter iff it occurs in `SH_TOKEN_DELIMITER`. -/
def isDelim (c : Char) : Bool := SH_TOKEN_DELIMITER.contains c

/-- `sh_split_line`: split a line into tokens exactly as the `strtok` loop
does — skip any delimiters, then emit the run of non-delimiter characters
up to the next delimiter as one token, and continue after it.  The
NUL-terminated C token array is the Lean list (its end is the sentinel). -/
def sh_split_line : List Char → List (List Char)
  | [] => []
  | c :: rest =>
    if isDelim c then
      sh_split_line rest
    else
      (c :: rest.takeWhile (fun d => !isDelim d)) ::
        sh_split_line (rest.dropWhile (fun d => !isDelim d))
termination_by l => l.length
decreasing_by
  · simp
  · simp only [List.length_cons]
    exact Nat.lt_succ_of_le (List.dropWhile_sublist _).length_le

/-- One step of the spec-side tokenizer (right fold): a delimiter closes the
token currently being built (dropping it when it is empty); a non-delimiter
character extends it. -/
def specStep (c : Char) (acc : List Char × List (List Char)) :
    List Char × List (List Char) :=
  if isDelim c then ([], if acc.1.isEmpty then acc.2 else acc.1 :: acc.2)
  else (c :: acc.1, acc.2)

/-- Close the final pending token of the spec-side tokenizer state. -/
def specFinish (acc : List Char × List (List Char)) : List (List Char) :=
  if acc.1.isEmpty then acc.2 else acc.1 :: acc.2

/-- The tokenizer contract as the spec words it: split the line on any run
of whitespace characters into the maximal non-whitespace runs, in
left-to-right order (computed here by a right fold, independently of the
`strtok` recursion of `sh_split_line`). -/
def specTokens (l : List Char) : List (List Char) :=
  specFinish (l.foldr specStep ([], []))

/-! ## Line reader (`sh_read_line`, lines 174–230 of `main.c`)

The non-`SH_USE_STD_GETLINE` branch is the one compiled by default; it is
the variant embedded here.  `stdin` is modelled as the list of characters
remaining on the stream; an exhausted list is `getchar` returning `EOF`. -/

/-- `EXIT_SUCCESS` of `<stdlib.h>`. -/
def EXIT_SUCCESS : Nat := 0

/-- `EXIT_FAILURE` of `<stdlib.h>`. -/
def EXIT_FAILURE : Nat := 1

/-- `SH_READ_LINE_BUFFER_SIZE`: initial line-buffer capacity and the fixed
increment by which the buffer grows. -/
def SH_READ_LINE_BUFFER_SIZE : Nat := 1024

/-- Result of one `sh_read_line` call: either a completed line — its
content (the C buffer up to the written `'\0'`, i.e. excluding the
newline), the buffer capacity at return time, and the characters left on
stdin — or a process-terminating `exit(code)` together with whatever the
exiting path printed to stderr. -/
inductive ReadOutcome
  | line (content : List Char) (capacity : Nat) (rest : List Char)
  | exitProcess (code : Nat) (stderr : List String)
deriving DecidableEq, Repr

/-- The `while (1)` body of `sh_read_line`: read a character; on `EOF` call
`exit(EXIT_SUCCESS)` (printing nothing); on `'\n'` NUL-terminate and return
the buffer; otherwise store the character, advance `position`, and when
`position` has reached the capacity grow it by
`SH_READ_LINE_BUFFER_SIZE`.  `acc` is the buffer content up to `position`
(so `position = acc.length`) and `cap` is `buffer_size`.  Allocation is
modelled as always succeeding, so the `realloc`-failure exit path is not
reachable in the model. -/
def sh_read_line_go : List Char → List Char → Nat → ReadOutcome
  | [], _acc, _cap => .exitProcess EXIT_SUCCESS []
  | c :: rest, acc, cap =>
    if c = '\n' then .line acc cap rest
    else
      let acc2 := acc ++ [c]
      let cap2 := if cap ≤ acc2.length then cap + SH_READ_LINE_BUFFER_SIZE else cap
      sh_read_line_go rest acc2 cap2

/-- `sh_read_line`: start with an empty buffer of capacity
`SH_READ_LINE_BUFFER_SIZE` and run the read loop on the stdin stream. -/
def sh_read_line (input : List Char) : ReadOutcome :=
  sh_read_line_go input [] SH_READ_LINE_BUFFER_SIZE

/-! ## Builtins, launcher and dispatcher (lines 10–131 of `main.c`)

The handlers' side effects and OS dependencies are made explicit: an `Env`
injects the outcome of `chdir`, of `fork`, and the stream of child states
`waitpid` observes; a handler result carries the lines written to stdout
and stderr alongside the C `int` return value (`1` = continue the loop,
`0` = terminate it). -/

/-- A child state reported by `waitpid` (called with `WUNTRACED`, so
stopped children are reported too). -/
inductive WaitStatus
  | exited (code : Nat)
  | signaled (sig : Nat)
  | stopped (sig : Nat)
deriving DecidableEq, Repr

/-- `WIFEXITED`: the status says the child exited normally. -/
def WIFEXITED : WaitStatus → Bool
  | .exited _ => true
  | _ => false

/-- `WIFSIGNALED`: the status says the child was terminated by a signal. -/
def WIFSIGNALED : WaitStatus → Bool
  | .signaled _ => true
  | _ => false

/-- The outcome of `fork()` as seen in the shell (parent) process: a child
pid on success, or a failure with the system's reason (the `pid < 0`
branch).  The `pid == 0` case is the child process's own execution and is
modelled separately by `sh_launch_child`. -/
inductive ForkResult
  | ok (pid : Nat)
  | fail (errMsg : String)

/-- The injected operating-system environment of one dispatch: `chdir`
returns `none` on success or the opaque failure reason; `fork` and the
successive `waitpid` observations drive `sh_launch`. -/
structure Env where
  chdir : String → Option String
  fork : ForkResult
  waits : List WaitStatus

/-- Result of one handler/dispatch call: lines written to stdout, lines
written to stderr, and the returned continuation signal (C `int`:
`1` continue, `0` terminate). -/
structure ExecResult where
  stdout : List String
  stderr : List String
  ret : Int
deriving DecidableEq, Repr

/-- `sh_cd`: no `args[1]` (the argument vector ends after the command
name) reports a usage error; otherwise `chdir(args[1])`, reporting via
`perror("sh")` on failure.  Always returns `1`. -/
def sh_cd (env : Env) (args : List String) : ExecResult :=
  match args[1]? with
  | none => ⟨[], ["sh: expected argument to \"cd\""], 1⟩
  | some dir =>
    match env.chdir dir with
    | some reason => ⟨[], ["sh: " ++ reason], 1⟩
    | none => ⟨[], [], 1⟩

/-- `sh_help`: prints the banner and the registered builtin names to
stdout; always returns `1`. -/
def sh_help (_env : Env) (_args : List String) : ExecResult :=
  ⟨["SH", "Type program names and arguments, and hit enter.",
      "The following are built in:"]
    ++ builtin_str.map (fun s => "  " ++ s)
    ++ ["Use the man command for information on other programs."], [], 1⟩

/-- `sh_exit`: ignores its arguments and returns `0`. -/
def sh_exit (_env : Env) (_args : List String) : ExecResult :=
  ⟨[], [], 0⟩

/-- The child branch of `sh_launch` (`pid == 0`): `execvp` either replaces
the process image (`none` — control never returns) or fails, in which case
the child prints `perror("sh")` and calls `exit(EXIT_FAILURE)` (`some` of
the stderr line and the exit code). -/
def sh_launch_child (execOk : Bool) (errMsg : String) :
    Option (List String × Nat) :=
  if execOk then none
  else some (["sh: " ++ errMsg], EXIT_FAILURE)

/-- The `do { wpid = waitpid(pid, &status, WUNTRACED); } while
(!WIFEXITED(status) && !WIFSIGNALED(status));` loop: consume observed
child states until the first one that is exited-or-signaled and yield it;
`none` means the stream never produced a terminal state, i.e. the parent
is still blocked in `waitpid`. -/
def waitLoop : List WaitStatus → Option WaitStatus
  | [] => none
  | s :: rest => if WIFEXITED s || WIFSIGNALED s then some s else waitLoop rest

/-- `sh_launch` as executed by the shell process: on fork failure report
`perror("sh")` and return `1` without ever waiting; on fork success block
in the wait loop and return `1` once the child has exited or been
signaled (`none` = still blocked, the function has not returned). -/
def sh_launch (env : Env) (_args : List String) : Option ExecResult :=
  match env.fork with
  | .fail errMsg => some ⟨[], ["sh: " ++ errMsg], 1⟩
  | .ok _pid =>
    match waitLoop env.waits with
    | some _ => some ⟨[], [], 1⟩
    | none => none

/-- `builtin_func`: the handler table, parallel to `builtin_str`. -/
def builtin_func : List (Env → List String → ExecResult) :=
  [sh_cd, sh_help, sh_exit]

/-- `sh_num_builtins()`. -/
def sh_num_builtins : Nat := builtin_str.length

/-- `sh_execute`: an empty argument vector (`args[0] == NULL`) is a no-op
returning `1`; otherwise scan the builtin table in registration order and
run the first handler whose name equals `args[0]` (`strcmp == 0`); if none
matches, fall back to `sh_launch`. -/
def sh_execute (env : Env) (args : List String) : Option ExecResult :=
  match args with
  | [] => some ⟨[], [], 1⟩
  | name :: _ =>
    match (builtin_str.zip builtin_func).find? (fun p => p.1 == name) with
    | some p => some (p.2 env args)
    | none => sh_launch env args

/-! ## Tokenizer lemmas -/

theorem specStep_delim {c : Char} (h : isDelim c = true)
    (S : List Char × List (List Char)) :
    specStep c S = ([], specFinish S) := by
  simp [specStep, specFinish, h]

theorem specStep_nondelim {c : Char} (h : isDelim c = false)
    (S : List Char × List (List Char)) :
    specStep c S = (c :: S.1, S.2) := by
  simp [specStep, h]

theorem specTokens_cons_delim {c : Char} (h : isDelim c = true)
    (l : List Char) : specTokens (c :: l) = specTokens l := by
  simp [specTokens, List.foldr_cons, specStep_delim h, specFinish]

/-- The spec-side fold state over `l` is the leading non-whitespace run of
`l` (the pending token) together with the tokens of the remainder. -/
theorem foldr_specStep (l : List Char) :
    l.foldr specStep ([], []) =
      (l.takeWhile (fun d => !isDelim d),
        specTokens (l.dropWhile (fun d => !isDelim d))) := by
  induction l with
  | nil => simp [specTokens, specFinish]
  | cons c rest ih =>
    cases hc : isDelim c
    · simp only [List.foldr_cons, ih, specStep_nondelim hc,
        List.takeWhile_cons, List.dropWhile_cons, hc, Bool.not_false,
        if_true]
    · rw [List.foldr_cons, specStep_delim hc]
      have ht : (c :: rest).takeWhile (fun d => !isDelim d) = [] := by
        simp [List.takeWhile_cons, hc]
      have hd : (c :: rest).dropWhile (fun d => !isDelim d) = c :: rest := by
        simp [List.dropWhile_cons, hc]
      rw [ht, hd, specTokens_cons_delim hc]
      rfl

theorem specTokens_cons_nondelim {c : Char} (h : isDelim c = false)
    (l : List Char) :
    specTokens (c :: l) =
      (c :: l.takeWhile (fun d => !isDelim d)) ::
        specTokens (l.dropWhile (fun d => !isDelim d)) := by
  simp [specTokens, List.foldr_cons, specStep_nondelim h, foldr_specStep l,
    specFinish]

theorem sh_split_line_eq_specTokens_aux :
    ∀ (n : Nat) (l : List Char), l.length ≤ n →
      sh_split_line l = specTokens l := by
  intro n
  induction n with
  | zero =>
    intro l h
    have hl : l = [] := List.length_eq_zero.mp (Nat.le_zero.mp h)
    subst hl
    simp [sh_split_line, specTokens, specFinish]
  | succ n ih =>
    intro l h
    match l with
    | [] => simp [sh_split_line, specTokens, specFinish]
    | c :: rest =>
      have hrest : rest.length ≤ n := by
        simpa using Nat.le_of_succ_le_succ h
      cases hc : isDelim c
      · have hdrop : (rest.dropWhile (fun d => !isDelim d)).length ≤ n :=
          le_trans (List.dropWhile_sublist _).length_le hrest
        simp only [sh_split_line, hc, if_false, Bool.false_eq_true]
        rw [specTokens_cons_nondelim hc,
          ih (rest.dropWhile (fun d => !isDelim d)) hdrop]
      · simp only [sh_split_line, hc, if_true]
        rw [specTokens_cons_delim hc, ih rest hrest]

/-- The `strtok` recursion and the spec-side fold tokenize every line
identically. -/
theorem sh_split_line_eq_specTokens (l : List Char) :
    sh_split_line l = specTokens l :=
  sh_split_line_eq_specTokens_aux l.length l le_rfl

theorem specStep_delim_idem {c : Char} (h : isDelim c = true)
    (S : List Char × List (List Char)) :
    specStep c (specStep c S) = specStep c S := by
  simp [specStep_delim h, specFinish]

/-- Duplicating a whitespace character does not change the tokens. -/
theorem specTokens_dup {c : Char} (h : isDelim c = true)
    (pre post : List Char) :
    specTokens (pre ++ c :: c :: post) = specTokens (pre ++ c :: post) := by
  unfold specTokens
  simp only [List.foldr_append, List.foldr_cons]
  rw [specStep_delim_idem h]

/-- A run of `n + 1` copies of a whitespace character separates tokens
exactly as a single copy does. -/
theorem specTokens_replicate {c : Char} (h : isDelim c = true)
    (pre post : List Char) :
    ∀ n : Nat,
      specTokens (pre ++ List.replicate (n + 1) c ++ post) =
        specTokens (pre ++ c :: post)
  | 0 => by simp
  | n + 1 => by
    have h1 : pre ++ List.replicate (n + 2) c ++ post =
        pre ++ c :: c :: (List.replicate n c ++ post) := by
      simp [List.replicate_succ]
    have h2 : pre ++ c :: (List.replicate n c ++ post) =
        pre ++ List.replicate (n + 1) c ++ post := by
      simp [List.replicate_succ]
    rw [h1, specTokens_dup h, h2, specTokens_replicate h pre post n]

theorem sh_split_line_replicate {c : Char} (h : isDelim c = true)
    (pre post : List Char) (n : Nat) :
    sh_split_line (pre ++ List.replicate (n + 1) c ++ post) =
      sh_split_line (pre ++ c :: post) := by
  rw [sh_split_line_eq_specTokens, sh_split_line_eq_specTokens,
    specTokens_replicate h pre post n]

/-- A whitespace-only line tokenizes to the empty argument vector. -/
theorem sh_split_line_all_delim :
    ∀ l : List Char, (∀ c ∈ l, isDelim c = true) → sh_split_line l = []
  | [], _ => by simp [sh_split_line]
  | c :: rest, h => by
    have hc : isDelim c = true := h c (List.mem_cons_self c rest)
    simp only [sh_split_line, hc, if_true]
    exact sh_split_line_all_delim rest (fun d hd => h d (List.mem_cons_of_mem c hd))

/-! ## Line-reader lemmas -/

/-- Arithmetic of the growth policy: one stored character preserves the
invariant that the capacity is the smallest multiple of
`SH_READ_LINE_BUFFER_SIZE` strictly above the accumulated length. -/
theorem capacity_step (n cap : Nat) (h1 : n < cap)
    (h2 : cap = SH_READ_LINE_BUFFER_SIZE * (n / SH_READ_LINE_BUFFER_SIZE + 1)) :
    n + 1 < (if cap ≤ n + 1 then cap + SH_READ_LINE_BUFFER_SIZE else cap) ∧
      (if cap ≤ n + 1 then cap + SH_READ_LINE_BUFFER_SIZE else cap) =
        SH_READ_LINE_BUFFER_SIZE * ((n + 1) / SH_READ_LINE_BUFFER_SIZE + 1) := by
  simp only [SH_READ_LINE_BUFFER_SIZE] at *
  split <;> constructor <;> omega

/-- Running the read loop from any state satisfying the capacity invariant
on a stream that still contains a newline returns the buffer extended by
exactly the characters before that newline, with the capacity dictated by
the fixed-increment growth policy, leaving the stream positioned after the
newline. -/
theorem sh_read_line_go_spec :
    ∀ (input acc : List Char) (cap : Nat),
      acc.length < cap →
      cap = SH_READ_LINE_BUFFER_SIZE * (acc.length / SH_READ_LINE_BUFFER_SIZE + 1) →
      '\n' ∈ input →
      sh_read_line_go input acc cap =
        .line (acc ++ input.takeWhile (fun c => c != '\n'))
          (SH_READ_LINE_BUFFER_SIZE *
            ((acc ++ input.takeWhile (fun c => c != '\n')).length /
              SH_READ_LINE_BUFFER_SIZE + 1))
          ((input.dropWhile (fun c => c != '\n')).tail) := by
  intro input
  induction input with
  | nil => intro acc cap _ _ h3; simp at h3
  | cons c rest ih =>
    intro acc cap h1 h2 h3
    by_cases hc : c = '\n'
    · subst hc
      have hgo : sh_read_line_go ('\n' :: rest) acc cap = .line acc cap rest := by
        simp [sh_read_line_go]
      have htw : ('\n' :: rest).takeWhile (fun d => d != '\n') = [] := by
        simp [List.takeWhile_cons]
      have hdw : (('\n' :: rest).dropWhile (fun d => d != '\n')).tail = rest := by
        simp [List.dropWhile_cons]
      rw [hgo, htw, hdw, List.append_nil, ← h2]
    · have h3' : '\n' ∈ rest := by
        rcases List.mem_cons.mp h3 with h | h
        · exact absurd h.symm hc
        · exact h
      have hstep := capacity_step acc.length cap h1 h2
      simp only [sh_read_line_go, if_neg hc]
      have hlen : (acc ++ [c]).length = acc.length + 1 := by simp
      rw [ih (acc ++ [c]) _ (by rw [hlen]; exact hstep.1) (by rw [hlen]; exact hstep.2) h3']
      have htw : (c :: rest).takeWhile (fun d => d != '\n') =
          c :: rest.takeWhile (fun d => d != '\n') := by
        simp [List.takeWhile_cons, hc]
      have hdw : (c :: rest).dropWhile (fun d => d != '\n') =
          rest.dropWhile (fun d => d != '\n') := by
        simp [List.dropWhile_cons, hc]
      rw [htw, hdw]
      simp

/-- On a newline-terminated stream `sh_read_line` returns the characters
before the first newline (no truncation or corruption), with the final
capacity determined by fixed-increment growth, and consumes the newline. -/
theorem sh_read_line_spec (input : List Char) (h : '\n' ∈ input) :
    sh_read_line input =
      .line (input.takeWhile (fun c => c != '\n'))
        (SH_READ_LINE_BUFFER_SIZE *
          ((input.takeWhile (fun c => c != '\n')).length /
            SH_READ_LINE_BUFFER_SIZE + 1))
        ((input.dropWhile (fun c => c != '\n')).tail) := by
  unfold sh_read_line
  rw [sh_read_line_go_spec input [] SH_READ_LINE_BUFFER_SIZE
    (by simp [SH_READ_LINE_BUFFER_SIZE]) (by simp [SH_READ_LINE_BUFFER_SIZE]) h]
  simp

/-- A stream exhausted before any newline makes `sh_read_line` call
`exit(EXIT_SUCCESS)` without printing, whatever was accumulated. -/
theorem sh_read_line_go_eof :
    ∀ (input acc : List Char) (cap : Nat), (∀ c ∈ input, c ≠ '\n') →
      sh_read_line_go input acc cap = .exitProcess EXIT_SUCCESS []
  | [], _, _, _ => rfl
  | c :: rest, acc, cap, h => by
    have hc : c ≠ '\n' := h c (List.mem_cons_self c rest)
    simp only [sh_read_line_go, if_neg hc]
    exact sh_read_line_go_eof rest _ _ (fun d hd => h d (List.mem_cons_of_mem c hd))

/-! ## Dispatch lemmas -/

theorem sh_cd_ret (env : Env) (args : List String) :
    (sh_cd env args).ret = 1 := by
  unfold sh_cd
  split
  · rfl
  · split <;> rfl

theorem sh_launch_ret (env : Env) (args : List String) (r : ExecResult)
    (h : sh_launch env args = some r) : r.ret = 1 := by
  unfold sh_launch at h
  split at h
  · have h2 := Option.some.inj h
    rw [← h2]
  · split at h
    · have h2 := Option.some.inj h
      rw [← h2]
    · exact absurd h (by simp)

/-- The dispatcher resolved on a non-empty argument vector: the first
argument is matched against `"cd"`, `"help"`, `"exit"` in registration
order, with `sh_launch` as the fallback. -/
theorem sh_execute_cons (env : Env) (name : String) (rest : List String) :
    sh_execute env (name :: rest) =
      if name = "cd" then some (sh_cd env (name :: rest))
      else if name = "help" then some (sh_help env (name :: rest))
      else if name = "exit" then some (sh_exit env (name :: rest))
      else sh_launch env (name :: rest) := by
  have hz : builtin_str.zip builtin_func =
      [("cd", sh_cd), ("help", sh_help), ("exit", sh_exit)] := rfl
  simp only [sh_execute, hz, List.find?]
  rcases eq_or_ne name "cd" with h1 | h1
  · subst h1; simp
  · rw [if_neg h1]
    have b1 : (("cd", sh_cd).1 == name) = false := by
      simpa using fun h => h1 h.symm
    rw [b1]
    rcases eq_or_ne name "help" with h2 | h2
    · subst h2; simp
    · rw [if_neg h2]
      have b2 : (("help", sh_help).1 == name) = false := by
        simpa using fun h => h2 h.symm
      rw [b2]
      rcases eq_or_ne name "exit" with h3 | h3
      · subst h3; simp
      · rw [if_neg h3]
        have b3 : (("exit", sh_exit).1 == name) = false := by
          simpa using fun h => h3 h.symm
        rw [b3]

theorem waitLoop_terminal (ws : List WaitStatus) (s : WaitStatus)
    (h : waitLoop ws = some s) :
    WIFEXITED s = true ∨ WIFSIGNALED s = true := by
  induction ws with
  | nil => exact absurd h (by simp [waitLoop])
  | cons w rest ih =>
    by_cases hw : (WIFEXITED w || WIFSIGNALED w) = true
    · rw [waitLoop, if_pos hw] at h
      cases h
      exact Bool.or_eq_true_iff.mp hw
    · rw [waitLoop, if_neg hw] at h
      exact ih h

/-! ## The claims -/

/-- C1: dispatching any argument vector whose first token is `"exit"`
returns the terminate signal `0`, and every other dispatch outcome — `cd`,
`help`, or a launcher invocation, successful or not — returns the continue
signal `1`; `exit` is the only path whose continuation signal stops the
dispatch loop. -/
theorem C1_exit_only_terminate (env : Env) (args : List String)
    (r : ExecResult) (h : sh_execute env args = some r) :
    r.ret = 0 ↔ args.head? = some "exit" := by
  match args with
  | [] =>
    have h2 := Option.some.inj h
    rw [← h2]
    simp
  | name :: rest =>
    rw [sh_execute_cons] at h
    split_ifs at h with h1 h2 h3
    · have h4 := Option.some.inj h
      subst h1
      rw [← h4, sh_cd_ret]
      simp
    · have h4 := Option.some.inj h
      subst h2
      rw [← h4]
      simp [sh_help]
    · have h4 := Option.some.inj h
      subst h3
      rw [← h4]
      simp [sh_exit]
    · rw [sh_launch_ret env (name :: rest) r h]
      simp [h3]

/-- Witness for C1 at the concrete dispatch of `exit now`. -/
theorem C1_witness :
    ((⟨[], [], 0⟩ : ExecResult).ret = 0 ↔
      (["exit", "now"] : List String).head? = some "exit") :=
  C1_exit_only_terminate ⟨fun _ => none, .fail "err", []⟩ ["exit", "now"]
    ⟨[], [], 0⟩ (by decide)

/-- C2: end-of-stream with zero characters read makes the line reader
terminate the whole process with `exit(EXIT_SUCCESS)`, printing nothing —
the result is the process-exit constructor with exit code `0` and empty
stderr, not a returned (empty) line. -/
theorem C2_eof_at_start_exits_success :
    sh_read_line [] = .exitProcess EXIT_SUCCESS [] := rfl

/-- C3: the launcher, whenever it returns at all, returns the continue
signal `1`; on fork failure the parent reports `perror("sh")` and returns
without consulting the wait stream at all (the equation holds for every
`waits`); on exec failure the child reports the error and exits with the
non-zero status `EXIT_FAILURE`. -/
theorem C3_launch_failure_recoverable :
    (∀ env args r, sh_launch env args = some r → r.ret = 1) ∧
    (∀ chdirF msg waits args,
        sh_launch ⟨chdirF, .fail msg, waits⟩ args =
          some ⟨[], ["sh: " ++ msg], 1⟩) ∧
    (∀ msg, sh_launch_child false msg = some (["sh: " ++ msg], EXIT_FAILURE) ∧
        EXIT_FAILURE ≠ 0) := by
  refine ⟨sh_launch_ret, ?_, ?_⟩
  · intro chdirF msg waits args
    rfl
  · intro msg
    exact ⟨rfl, by decide⟩

/-- Witness for C3 at a concrete launch whose fork fails. -/
theorem C3_witness : (⟨[], ["sh: boom"], 1⟩ : ExecResult).ret = 1 :=
  C3_launch_failure_recoverable.1 ⟨fun _ => none, .fail "boom", []⟩
    ["prog", "x"] ⟨[], ["sh: boom"], 1⟩ (by decide)

/-- C4: a line made only of whitespace tokenizes to the empty argument
vector, and dispatching the empty vector returns the continue signal with
no stdout and no stderr — uniformly in the environment, so no registry
handler and no launch is ever consulted (in particular the result is the
same in an environment whose launcher would block forever). -/
theorem C4_empty_line_noop :
    (∀ l : List Char, (∀ c ∈ l, isDelim c = true) → sh_split_line l = []) ∧
    (∀ env : Env, sh_execute env [] = some ⟨[], [], 1⟩) :=
  ⟨sh_split_line_all_delim, fun _ => rfl⟩

/-- Witness for C4 on the whitespace line `" \t "` and an environment
whose launcher would block (fork succeeds, the wait stream is empty). -/
theorem C4_witness :
    sh_split_line " \t ".data = [] ∧
      sh_execute ⟨fun _ => none, .ok 1, []⟩ [] = some ⟨[], [], 1⟩ :=
  ⟨C4_empty_line_noop.1 " \t ".data (by decide),
    C4_empty_line_noop.2 ⟨fun _ => none, .ok 1, []⟩⟩

/-- C5: the `strtok`-style tokenizer yields, for every line, exactly the
maximal non-whitespace runs of the line in left-to-right order (the
spec-side right fold `specTokens`); the C token array's `NULL` sentinel is
the end of the returned list. -/
theorem C5_tokenizer_maximal_runs (l : List Char) :
    sh_split_line l = specTokens l :=
  sh_split_line_eq_specTokens l

/-- C6: `cd` with no argument writes exactly one usage-error line to
stderr and returns `1`; on `chdir` failure it reports the system reason
and returns `1`; on success it is silent and returns `1`. -/
theorem C6_cd_error_handling :
    (∀ env args, args[1]? = none →
        sh_cd env args = ⟨[], ["sh: expected argument to \"cd\""], 1⟩) ∧
    (∀ env args dir reason, args[1]? = some dir →
        env.chdir dir = some reason →
        sh_cd env args = ⟨[], ["sh: " ++ reason], 1⟩) ∧
    (∀ env args dir, args[1]? = some dir → env.chdir dir = none →
        sh_cd env args = ⟨[], [], 1⟩) := by
  refine ⟨?_, ?_, ?_⟩
  · intro env args h
    simp [sh_cd, h]
  · intro env args dir reason h1 h2
    simp [sh_cd, h1, h2]
  · intro env args dir h1 h2
    simp [sh_cd, h1, h2]

/-- Witness for C6: the three `cd` branches at concrete inputs. -/
theorem C6_witness :
    sh_cd ⟨fun _ => none, .fail "e", []⟩ ["cd"] =
        ⟨[], ["sh: expected argument to \"cd\""], 1⟩ ∧
      sh_cd ⟨fun _ => some "No such file or directory", .fail "e", []⟩
          ["cd", "/nope"] =
        ⟨[], ["sh: " ++ "No such file or directory"], 1⟩ ∧
      sh_cd ⟨fun _ => none, .fail "e", []⟩ ["cd", "/tmp"] = ⟨[], [], 1⟩ :=
  ⟨C6_cd_error_handling.1 ⟨fun _ => none, .fail "e", []⟩ ["cd"] rfl,
    C6_cd_error_handling.2.1
      ⟨fun _ => some "No such file or directory", .fail "e", []⟩
      ["cd", "/nope"] "/nope" "No such file or directory" rfl rfl,
    C6_cd_error_handling.2.2 ⟨fun _ => none, .fail "e", []⟩ ["cd", "/tmp"]
      "/tmp" rfl rfl⟩

/-- C7: on any stream still containing a newline — in particular on lines
at or past the initial capacity — the reader returns exactly the
characters before the first newline (newline excluded, nothing truncated
or corrupted), with the buffer capacity grown linearly by the fixed
increment `SH_READ_LINE_BUFFER_SIZE`: the final capacity is the smallest
multiple of the increment strictly above the content length. -/
theorem C7_read_line_no_truncation (input : List Char) (h : '\n' ∈ input) :
    sh_read_line input =
      .line (input.takeWhile (fun c => c != '\n'))
        (SH_READ_LINE_BUFFER_SIZE *
          ((input.takeWhile (fun c => c != '\n')).length /
            SH_READ_LINE_BUFFER_SIZE + 1))
        ((input.dropWhile (fun c => c != '\n')).tail) :=
  sh_read_line_spec input h

set_option maxRecDepth 16384 in
/-- Witness for C7 on a 1030-character line, longer than the initial
1024-byte capacity: read in full, with the buffer grown once to 2048. -/
theorem C7_witness :
    sh_read_line (List.replicate 1030 'a' ++ ['\n']) =
      .line (List.replicate 1030 'a') 2048 [] := by
  have h := C7_read_line_no_truncation (List.replicate 1030 'a' ++ ['\n'])
    (List.mem_append_right _ (List.mem_singleton.mpr rfl))
  rw [h]
  decide

/-- C8: the parent's wait loop accepts only exited-or-signaled child
states: whatever status it yields satisfies `WIFEXITED ∨ WIFSIGNALED`, a
leading stopped observation is skipped and waited past, and (fork having
succeeded) the launcher has returned precisely when the wait stream
contains a terminal state. -/
theorem C8_wait_until_terminal :
    (∀ ws s, waitLoop ws = some s →
        WIFEXITED s = true ∨ WIFSIGNALED s = true) ∧
    (∀ sig ws, waitLoop (.stopped sig :: ws) = waitLoop ws) ∧
    (∀ chdirF pid waits args,
        (sh_launch ⟨chdirF, .ok pid, waits⟩ args).isSome ↔
          (waitLoop waits).isSome) := by
  refine ⟨waitLoop_terminal, ?_, ?_⟩
  · intro sig ws
    simp [waitLoop, WIFEXITED, WIFSIGNALED]
  · intro chdirF pid waits args
    cases h : waitLoop waits <;> simp [sh_launch, h]

/-- Witness for C8: a child stopped by `SIGSTOP` (19) is waited past and
the loop ends on the subsequent exit status. -/
theorem C8_witness :
    WIFEXITED (WaitStatus.exited 3) = true ∨
      WIFSIGNALED (WaitStatus.exited 3) = true :=
  C8_wait_until_terminal.1 [WaitStatus.stopped 19, WaitStatus.exited 3]
    (WaitStatus.exited 3) (by decide)

/-- C9: tokenization is invariant under the width of whitespace runs: a
run of `n + 1` copies of a whitespace character splits exactly as a single
copy, and in particular `"a   b"` and `"a b"` both tokenize to
`["a", "b"]`. -/
theorem C9_whitespace_width_invariant :
    (∀ (pre post : List Char) (c : Char) (n : Nat), isDelim c = true →
        sh_split_line (pre ++ List.replicate (n + 1) c ++ post) =
          sh_split_line (pre ++ c :: post)) ∧
      sh_split_line "a   b".data = sh_split_line "a b".data ∧
      sh_split_line "a b".data = [['a'], ['b']] := by
  refine ⟨fun pre post c n h => sh_split_line_replicate h pre post n, ?_, ?_⟩
  · rw [sh_split_line_eq_specTokens, sh_split_line_eq_specTokens]
    decide
  · rw [sh_split_line_eq_specTokens]
    decide

/-- Witness for C9: a three-space run between `a` and `b` tokenizes as a
single space does. -/
theorem C9_witness :
    sh_split_line ("a".data ++ List.replicate 3 ' ' ++ "b".data) =
      sh_split_line ("a".data ++ ' ' :: "b".data) :=
  C9_whitespace_width_invariant.1 "a".data "b".data ' ' 2 (by decide)

/-- C10: end-of-stream reached with no newline seen — also after one or
more characters were already accumulated — makes the reader call
`exit(EXIT_SUCCESS)` printing nothing, discarding the partial characters
rather than returning them as a line. -/
theorem C10_eof_mid_line_discards (input : List Char)
    (h : ∀ c ∈ input, c ≠ '\n') :
    sh_read_line input = .exitProcess EXIT_SUCCESS [] :=
  sh_read_line_go_eof input [] SH_READ_LINE_BUFFER_SIZE h

/-- Witness for C10: EOF after the two characters `ab`. -/
theorem C10_witness : sh_read_line "ab".data = .exitProcess EXIT_SUCCESS [] :=
  C10_eof_mid_line_discards "ab".data (by decide)
